import Mathlib

/-!
Shallow embedding of the rust-kanban hierarchical board engine
(`src/model.rs` and `src/app.rs`) and proofs about its navigation and
mutation operations.

Rust `Vec` becomes `List`, `usize` becomes `Nat` (with `Int` at the
points where the source computes in `i32`), `Option`/missing values stay
`Option`, and every place where the source can panic (direct indexing
out of range, or the explicit panic in `get_board_recursive`) is modelled
by an `Option` result whose `none` stands for the crash.
-/

set_option autoImplicit false

namespace Kanban

/-- `model.rs` `TodoItem`: `text: String`, `done: bool`. -/
structure TodoItem where
  text : String
  done : Bool
  deriving DecidableEq, Repr

mutual

/-- `model.rs` `Board`: `title: String`, `columns: Vec<Column>`. -/
inductive Board where
  | mk : String → List Column → Board

/-- `model.rs` `Column`: `title: String`, `tasks: Vec<Task>`. -/
inductive Column where
  | mk : String → List Task → Column

/-- `model.rs` `Task`: `id: Uuid`, `title`, `description`, `content:
Option<TaskContent>`.  The UUID is opaque to every operation we verify,
so it is modelled as a `Nat`. -/
inductive Task where
  | mk : Nat → String → String → Option TaskContent → Task

/-- `model.rs` `TaskContent`: `Board(Board) | Todo(Vec<TodoItem>) | Text(String)`. -/
inductive TaskContent where
  | board : Board → TaskContent
  | todo : List TodoItem → TaskContent
  | text : String → TaskContent

end

def Board.title : Board → String
  | .mk t _ => t

def Board.columns : Board → List Column
  | .mk _ cs => cs

def Board.withColumns : Board → List Column → Board
  | .mk t _, cs => .mk t cs

def Column.title : Column → String
  | .mk t _ => t

def Column.tasks : Column → List Task
  | .mk _ ts => ts

def Column.withTasks : Column → List Task → Column
  | .mk t _, ts => .mk t ts

def Task.id : Task → Nat
  | .mk i _ _ _ => i

def Task.title : Task → String
  | .mk _ t _ _ => t

def Task.description : Task → String
  | .mk _ _ d _ => d

def Task.content : Task → Option TaskContent
  | .mk _ _ _ c => c

def Task.withContent : Task → Option TaskContent → Task
  | .mk i t d _, c => .mk i t d c

/-- `Column::new(title)`: empty task list. -/
def Column.new (title : String) : Column := .mk title []

/-- `Task::new(title, description)`: fresh task with `content = None`
(the generated UUID is opaque, modelled as `0`). -/
def Task.new (title description : String) : Task := .mk 0 title description none

/-- `impl Default for Board`: "Main Board" with the three standard columns. -/
def Board.default : Board :=
  .mk "Main Board" [Column.new "To Do", Column.new "In Progress", Column.new "Done"]

/-- `app.rs` `InputMode`. -/
inductive InputMode where
  | normal
  | editing
  | editingColumn
  | selectType
  deriving DecidableEq, Repr

/-- `app.rs` `ActiveContentRef`: the result of the view resolver (values
instead of references in the embedding). -/
inductive ActiveContentRef where
  | board : Board → ActiveContentRef
  | todo : List TodoItem → ActiveContentRef
  | text : String → ActiveContentRef
  | none : ActiveContentRef

/-- `app.rs` `App`: the engine state.  The `(usize, usize)` path entries
and cursor become `Nat × Nat` pairs (column, row). -/
structure App where
  root : Board
  path : List (Nat × Nat)
  cursor : Nat × Nat
  input_mode : InputMode
  input_buffer : String
  should_quit : Bool
  show_help : Bool
  dirty : Bool

/-- `board.columns.get(c).and_then(|col| col.tasks.get(r))`: the safe
double lookup used throughout `app.rs`. -/
def taskAt (b : Board) (c r : Nat) : Option Task :=
  match b.columns[c]? with
  | Option.none => Option.none
  | Option.some col => col.tasks[r]?

/-- Write task `t` back at position `(c, r)` (callers establish that the
indices are in range; `List.set` out of range leaves the list unchanged). -/
def setTask (b : Board) (c r : Nat) (t : Task) : Board :=
  match b.columns[c]? with
  | Option.none => b
  | Option.some col => b.withColumns (b.columns.set c (col.withTasks (col.tasks.set r t)))

/-- Replace the column at index `c`. -/
def setColumn (b : Board) (c : Nat) (col : Column) : Board :=
  b.withColumns (b.columns.set c col)

/-- `App::get_board_recursive` (`app.rs:404-416`): descend through
`NestedBoard` content along the path.  The source indexes
`board.columns[col_idx].tasks[task_idx]` directly and ends in
`panic!("Invalid path: expected Board")` when a step's content is not a
board; both crashes are modelled by `none`. -/
def get_board_recursive (b : Board) : List (Nat × Nat) → Option Board
  | [] => some b
  | (c, r) :: rest =>
    match taskAt b c r with
    | Option.none => Option.none
    | Option.some t =>
      match t.content with
      | some (.board nb) => get_board_recursive nb rest
      | _ => Option.none

/-- Write-back counterpart of `get_board_recursive`: replace the board at
the end of the path (the functional image of mutating through the
`&mut Board` the source resolver returns).  Same traversal, same crash
cases. -/
def replace_board_at (b : Board) : List (Nat × Nat) → Board → Option Board
  | [], nb => some nb
  | (c, r) :: rest, nb =>
    match taskAt b c r with
    | Option.none => Option.none
    | Option.some t =>
      match t.content with
      | some (.board sub) =>
        match replace_board_at sub rest nb with
        | Option.none => Option.none
        | Option.some sub' => some (setTask b c r (t.withContent (some (.board sub'))))
      | _ => Option.none

/-- `App::get_task_mut_recursive` (`app.rs:499-512`), read side.
Outer `none` models the direct-index crash the source performs at
non-terminal steps (`&mut board.columns[col_idx].tasks[task_idx]`);
`some none` is the source's `None` (empty path, terminal index out of
range via safe `get_mut`, or a non-board at a non-terminal step). -/
def get_task_at (b : Board) : List (Nat × Nat) → Option (Option Task)
  | [] => some Option.none
  | [(c, r)] => some (taskAt b c r)
  | (c, r) :: y :: ys =>
    match taskAt b c r with
    | Option.none => Option.none
    | Option.some t =>
      match t.content with
      | some (.board sub) => get_task_at sub (y :: ys)
      | _ => some Option.none

/-- Write-back counterpart of `get_task_at`: replace the task at the end
of the path.  Only invoked by callers after `get_task_at` returned
`some (some _)`, mirroring mutation through the source's `&mut Task`. -/
def set_task_at (b : Board) : List (Nat × Nat) → Task → Option Board
  | [], _ => Option.none
  | [(c, r)], t' =>
    match taskAt b c r with
    | Option.none => Option.none
    | Option.some _ => some (setTask b c r t')
  | (c, r) :: y :: ys, t' =>
    match taskAt b c r with
    | Option.none => Option.none
    | Option.some t =>
      match t.content with
      | some (.board sub) =>
        match set_task_at sub (y :: ys) t' with
        | Option.none => Option.none
        | Option.some sub' => some (setTask b c r (t.withContent (some (.board sub'))))
      | _ => Option.none

/-- `App::get_active_content` (`app.rs:375-400`): walk the path from the
root; a step whose indices do not resolve is skipped (the source's
`if let Some(..)` simply falls through and the loop continues with the
same board); the first task whose content is not a nested board ends the
walk with that content's view (`None` content gives the empty view); an
exhausted path gives the reached board's view. -/
def get_active_content (b : Board) : List (Nat × Nat) → ActiveContentRef
  | [] => .board b
  | (c, r) :: rest =>
    match taskAt b c r with
    | Option.none => get_active_content b rest
    | Option.some t =>
      match t.content with
      | some (.board nb) => get_active_content nb rest
      | some (.todo items) => .todo items
      | some (.text s) => .text s
      | Option.none => .none

/-- `items.sort_by_key(|k| k.done)` (`app.rs:423,447`): Rust's
`sort_by_key` is a stable sort, and for the two-valued key `done`
(`false < true`) a stable sort is exactly the not-done items in their
prior relative order followed by the done items in theirs. -/
def sortByDone (l : List TodoItem) : List TodoItem :=
  l.filter (fun i => !i.done) ++ l.filter (fun i => i.done)

/-- `item.done = !item.done` at list index `i` (`items.get_mut(index)`:
out of range leaves the list unchanged). -/
def flipAt : List TodoItem → Nat → List TodoItem
  | [], _ => []
  | x :: xs, 0 => { x with done := !x.done } :: xs
  | x :: xs, n + 1 => x :: flipAt xs n

/-- The list-level effect of `App::add_todo_item` (`app.rs:418-427`):
push `{text, done: false}` then stable-sort by `done`. -/
def addTodoList (l : List TodoItem) (text : String) : List TodoItem :=
  sortByDone (l ++ [⟨text, false⟩])

/-- The list-level effect of `App::toggle_todo_item` (`app.rs:440-450`):
flip `done` at `i` when in range, then stable-sort by `done` (the
source sorts even when the index was out of range). -/
def toggleTodoList (l : List TodoItem) (i : Nat) : List TodoItem :=
  sortByDone (flipAt l i)

/-- A to-do mutation: add an item or toggle an item. -/
inductive TodoOp where
  | add (text : String)
  | toggle (i : Nat)

/-- The raw mutation each operation performs before the re-sort. -/
def preSortOp (l : List TodoItem) : TodoOp → List TodoItem
  | .add text => l ++ [⟨text, false⟩]
  | .toggle i => flipAt l i

def applyTodoOp (l : List TodoItem) : TodoOp → List TodoItem
  | .add text => addTodoList l text
  | .toggle i => toggleTodoList l i

def applyTodoOps (l : List TodoItem) (ops : List TodoOp) : List TodoItem :=
  ops.foldl applyTodoOp l

/-- The list is all not-done items followed by all done items. -/
def IsPartitioned (l : List TodoItem) : Prop :=
  ∃ xs ys, l = xs ++ ys ∧ (∀ x ∈ xs, x.done = false) ∧ (∀ y ∈ ys, y.done = true)

/-- `App::add_todo_item` (`app.rs:418-427`). -/
def add_todo_item (app : App) (text : String) : Option App :=
  match get_task_at app.root app.path with
  | Option.none => Option.none
  | some Option.none => some app
  | some (Option.some t) =>
    match t.content with
    | some (.todo items) =>
      match set_task_at app.root app.path (t.withContent (some (.todo (addTodoList items text)))) with
      | Option.none => Option.none
      | Option.some root' => some { app with root := root', dirty := true }
    | _ => some app

/-- `App::remove_todo_item` (`app.rs:429-438`). -/
def remove_todo_item (app : App) (index : Nat) : Option App :=
  match get_task_at app.root app.path with
  | Option.none => Option.none
  | some Option.none => some app
  | some (Option.some t) =>
    match t.content with
    | some (.todo items) =>
      if index < items.length then
        match set_task_at app.root app.path (t.withContent (some (.todo (items.eraseIdx index)))) with
        | Option.none => Option.none
        | Option.some root' => some { app with root := root', dirty := true }
      else some app
    | _ => some app

/-- `App::toggle_todo_item` (`app.rs:440-450`): the flip happens (and
`dirty` is set) only when the index is in range, but the stable re-sort
runs regardless. -/
def toggle_todo_item (app : App) (index : Nat) : Option App :=
  match get_task_at app.root app.path with
  | Option.none => Option.none
  | some Option.none => some app
  | some (Option.some t) =>
    match t.content with
    | some (.todo items) =>
      match set_task_at app.root app.path (t.withContent (some (.todo (toggleTodoList items index)))) with
      | Option.none => Option.none
      | Option.some root' =>
        some { app with root := root',
                        dirty := if index < items.length then true else app.dirty }
    | _ => some app

/-- `App::set_text_content` (`app.rs:452-457`). -/
def set_text_content (app : App) (s : String) : Option App :=
  match get_task_at app.root app.path with
  | Option.none => Option.none
  | some Option.none => some app
  | some (Option.some t) =>
    match set_task_at app.root app.path (t.withContent (some (.text s))) with
    | Option.none => Option.none
    | Option.some root' => some { app with root := root', dirty := true }

/-- Rust `i32::clamp(lo, hi)` for `lo ≤ hi`. -/
def intClamp (x lo hi : Int) : Int := max lo (min x hi)

/-- Length of the task list of column `c` of `b` (0 when out of range). -/
def tasksLenAt (b : Board) (c : Nat) : Nat :=
  match b.columns[c]? with
  | Option.none => 0
  | Option.some col => col.tasks.length

/-- Total number of tasks across all columns of a board. -/
def totalTasks (b : Board) : Nat :=
  (b.columns.map (fun col => col.tasks.length)).sum

/-- `App::move_cursor` (`app.rs:153-190`).  The source computes in `i32`
and casts back to `usize`; `none` models the direct index
`board.columns[c as usize]` crashing when the (unclamped, `dx = 0`)
column is out of range. -/
def move_cursor (app : App) (dx dy : Int) : Option App :=
  if app.input_mode ≠ InputMode.normal ∨ app.show_help = true then some app
  else
    match get_active_content app.root app.path with
    | .board b =>
      let colCount := b.columns.length
      if colCount = 0 then some app
      else
        let c0 : Int := app.cursor.1
        let r0 : Int := app.cursor.2
        let c1 : Int := if dx ≠ 0 then intClamp (c0 + dx) 0 (colCount - 1) else c0
        match b.columns[c1.toNat]? with
        | Option.none => Option.none
        | Option.some col =>
          let tasksLen := col.tasks.length
          let maxR : Int := if tasksLen > 0 then (tasksLen : Int) - 1 else 0
          let r1 : Int :=
            if dy ≠ 0 then
              if dx ≠ 0 then min r0 maxR else intClamp (r0 + dy) 0 maxR
            else if dx ≠ 0 then min r0 maxR
            else r0
          some { app with cursor := (c1.toNat, r1.toNat) }
    | .todo items =>
      let len := items.length
      if len = 0 then some app
      else
        let r0 : Int := app.cursor.2
        let r1 : Int := if dy ≠ 0 then intClamp (r0 + dy) 0 ((len : Int) - 1) else r0
        some { app with cursor := (0, r1.toNat) }
    | _ => some app

/-- `App::handle_drill_down` (`app.rs:192-224`): on a board view, a task
with no content switches to `SelectType`; a task with content pushes the
cursor onto the path and resets the cursor to `(0,0)`, and if the newly
viewed content is text, enters `Editing` with the buffer pre-filled. -/
def handle_drill_down (app : App) : App :=
  match get_active_content app.root app.path with
  | .board b =>
    match taskAt b app.cursor.1 app.cursor.2 with
    | Option.none => app
    | Option.some task =>
      match task.content with
      | Option.none => { app with input_mode := .selectType }
      | Option.some _ =>
        let app1 := { app with path := app.path ++ [(app.cursor.1, app.cursor.2)],
                               cursor := (0, 0) }
        match get_active_content app1.root app1.path with
        | .text s => { app1 with input_mode := .editing, input_buffer := s }
        | _ => app1
  | .text s => { app with input_mode := .editing, input_buffer := s }
  | _ => app

/-- `App::go_back` (`app.rs:226-238`): dismiss the help overlay first,
then cancel `SelectType`, otherwise pop the last path segment and
restore the cursor recorded there. -/
def go_back (app : App) : App :=
  if app.show_help = true then { app with show_help := false }
  else if app.input_mode = InputMode.selectType then { app with input_mode := .normal }
  else
    match app.path.getLast? with
    | Option.none => app
    | Option.some cr => { app with path := app.path.dropLast, cursor := cr }

/-- `App::initialize_content` (`app.rs:240-263`): only in `SelectType`
mode; binds `content` to the task under the cursor of the board the path
resolves to, switches to `Normal`, then immediately drills down.
`none` models the resolver's crash on a malformed path; the inner
write-back cannot fail once the read resolver succeeded. -/
def initialize_content (app : App) (content : TaskContent) : Option App :=
  if app.input_mode ≠ InputMode.selectType then some app
  else
    match get_board_recursive app.root app.path with
    | Option.none => Option.none
    | Option.some bm =>
      let app1 :=
        match bm.columns[app.cursor.1]? with
        | Option.none => app
        | Option.some col =>
          match col.tasks[app.cursor.2]? with
          | Option.none => app
          | Option.some t =>
            match replace_board_at app.root app.path
                (setColumn bm app.cursor.1
                  (col.withTasks (col.tasks.set app.cursor.2 (t.withContent (some content))))) with
            | Option.none => app
            | Option.some root' => { app with root := root', dirty := true }
      some (handle_drill_down { app1 with input_mode := .normal })

/-- Rust `str::trim`: strip leading and trailing whitespace.  Modelled
on the underlying character list so that it evaluates inside the kernel. -/
def rustTrim (s : String) : String :=
  ⟨((s.data.dropWhile Char.isWhitespace).reverse.dropWhile Char.isWhitespace).reverse⟩

/-- `App::submit_input` (`app.rs:265-319`): commit the input buffer.
In `EditingColumn` mode a non-blank trimmed title appends a column;
otherwise the active view decides: board view appends a task to the
cursor's column, to-do view adds an item, text view stores the buffer
verbatim.  The buffer is cleared and the mode returns to `Normal` in
every case. -/
def submit_input (app : App) : Option App :=
  if app.input_mode = InputMode.editingColumn then
    let title := rustTrim app.input_buffer
    if title = "" then some { app with input_buffer := "", input_mode := .normal }
    else
      match get_board_recursive app.root app.path with
      | Option.none => Option.none
      | Option.some bm =>
        match replace_board_at app.root app.path
            (bm.withColumns (bm.columns ++ [Column.new title])) with
        | Option.none => Option.none
        | Option.some root' =>
          some { app with root := root', dirty := true,
                          input_buffer := "", input_mode := .normal }
  else
    match get_active_content app.root app.path with
    | .board _ =>
      let title := rustTrim app.input_buffer
      if title = "" then some { app with input_buffer := "", input_mode := .normal }
      else
        match get_board_recursive app.root app.path with
        | Option.none => Option.none
        | Option.some bm =>
          if app.cursor.1 < bm.columns.length then
            match bm.columns[app.cursor.1]? with
            | Option.none => Option.none
            | Option.some col =>
              match replace_board_at app.root app.path
                  (setColumn bm app.cursor.1
                    (col.withTasks (col.tasks ++ [Task.new title ""]))) with
              | Option.none => Option.none
              | Option.some root' =>
                some { app with root := root', dirty := true,
                                input_buffer := "", input_mode := .normal }
          else some { app with input_buffer := "", input_mode := .normal }
    | .todo _ =>
      let text := rustTrim app.input_buffer
      if text = "" then some { app with input_buffer := "", input_mode := .normal }
      else
        match add_todo_item app text with
        | Option.none => Option.none
        | Option.some a => some { a with input_buffer := "", input_mode := .normal }
    | .text _ =>
      match set_text_content app app.input_buffer with
      | Option.none => Option.none
      | Option.some a => some { a with input_buffer := "", input_mode := .normal }
    | .none => some { app with input_buffer := "", input_mode := .normal }

/-- `App::delete_item` (`app.rs:321-345`): board view removes the task at
the cursor (the whole task value, hence its entire subtree) and
decrements the row exactly when the removed row was the last one and
positive; to-do view removes the item at the cursor row and decrements
the row whenever it was positive. -/
def delete_item (app : App) : Option App :=
  match get_active_content app.root app.path with
  | .board b =>
    if app.cursor.1 < b.columns.length ∧ app.cursor.2 < tasksLenAt b app.cursor.1 then
      match get_board_recursive app.root app.path with
      | Option.none => Option.none
      | Option.some bm =>
        match bm.columns[app.cursor.1]? with
        | Option.none => Option.none
        | Option.some col =>
          if app.cursor.2 < col.tasks.length then
            let col' := col.withTasks (col.tasks.eraseIdx app.cursor.2)
            match replace_board_at app.root app.path (setColumn bm app.cursor.1 col') with
            | Option.none => Option.none
            | Option.some root' =>
              let newRow :=
                if app.cursor.2 ≥ col'.tasks.length ∧ app.cursor.2 > 0 then app.cursor.2 - 1
                else app.cursor.2
              some { app with root := root', dirty := true,
                              cursor := (app.cursor.1, newRow) }
          else Option.none
    else some app
  | .todo items =>
    if app.cursor.2 < items.length then
      match remove_todo_item app app.cursor.2 with
      | Option.none => Option.none
      | Option.some app1 =>
        some (if app.cursor.2 > 0 then { app1 with cursor := (app1.cursor.1, app.cursor.2 - 1) }
              else app1)
    else some app
  | _ => some app

/-- `App::toggle_todo` (`app.rs:347-354`). -/
def toggle_todo (app : App) : Option App :=
  match get_active_content app.root app.path with
  | .todo items =>
    if app.cursor.2 < items.length then toggle_todo_item app app.cursor.2 else some app
  | _ => some app

/-- `App::move_task_horizontal` (`app.rs:459-497`): only in `Normal`
mode and on a board view; bounds-check the destination column against
the viewed board, then remove the task at the cursor from its column and
push it onto the destination column of the board the path resolves to,
placing the cursor on the destination column's new last row. -/
def move_task_horizontal (app : App) (dir : Int) : Option App :=
  if app.input_mode ≠ InputMode.normal then some app
  else
    match get_active_content app.root app.path with
    | .board b =>
      let newC : Int := (app.cursor.1 : Int) + dir
      if newC < 0 ∨ newC ≥ (b.columns.length : Int) then some app
      else
        match get_board_recursive app.root app.path with
        | Option.none => Option.none
        | Option.some bm =>
          match bm.columns[app.cursor.1]? with
          | Option.none => Option.none
          | Option.some colc =>
            if app.cursor.2 < colc.tasks.length then
              match colc.tasks[app.cursor.2]? with
              | Option.none => Option.none
              | Option.some task =>
                let bm1 := setColumn bm app.cursor.1
                    (colc.withTasks (colc.tasks.eraseIdx app.cursor.2))
                match bm1.columns[newC.toNat]? with
                | Option.none => Option.none
                | Option.some coln =>
                  let bm2 := setColumn bm1 newC.toNat
                      (coln.withTasks (coln.tasks ++ [task]))
                  match replace_board_at app.root app.path bm2 with
                  | Option.none => Option.none
                  | Option.some root' =>
                    some { app with root := root', dirty := true,
                                    cursor := (newC.toNat, (coln.tasks ++ [task]).length - 1) }
            else some app
    | _ => some app

/-- Modelled from the spec (§4.1 error conditions): a path is integral
when every index is in range and every step's task content is a
`NestedBoard`.  This is the spec-side predicate against which the
source resolver's crash behaviour is compared. -/
def pathIntegral (b : Board) : List (Nat × Nat) → Bool
  | [] => true
  | (c, r) :: rest =>
    match taskAt b c r with
    | Option.none => false
    | Option.some t =>
      match t.content with
      | some (.board nb) => pathIntegral nb rest
      | _ => false

/-- The view a task's (optional) content yields: the dispatch of
`app.rs:386-394` applied to one content value. -/
def viewOf : Option TaskContent → ActiveContentRef
  | Option.none => .none
  | some (.board b) => .board b
  | some (.todo items) => .todo items
  | some (.text s) => .text s

/-- Whether an optional content is a nested board. -/
def contentIsBoard : Option TaskContent → Bool
  | some (.board _) => true
  | _ => false

/-! ## Shared lemmas linking the resolvers -/

/-- Columns survive `withColumns`. -/
@[simp] theorem columns_withColumns (b : Board) (cs : List Column) :
    (b.withColumns cs).columns = cs := by
  cases b with
  | mk t cs0 => rfl

@[simp] theorem tasks_withTasks (col : Column) (ts : List Task) :
    (col.withTasks ts).tasks = ts := by
  cases col with
  | mk t ts0 => rfl

@[simp] theorem content_withContent (t : Task) (c : Option TaskContent) :
    (t.withContent c).content = c := by
  cases t with
  | mk i ti d c0 => rfl

/-- When `taskAt` succeeds both indices are in range. -/
theorem taskAt_bounds {b : Board} {c r : Nat} {t : Task} (h : taskAt b c r = some t) :
    ∃ col, b.columns[c]? = some col ∧ c < b.columns.length ∧
      col.tasks[r]? = some t ∧ r < col.tasks.length := by
  unfold taskAt at h
  cases hcol : b.columns[c]? with
  | none => simp only [hcol] at h; exact absurd h (by simp)
  | some col =>
    simp only [hcol] at h
    refine ⟨col, rfl, ?_, h, ?_⟩
    · by_contra hc
      rw [List.getElem?_eq_none (by omega)] at hcol
      exact absurd hcol (by simp)
    · by_contra hr
      rw [List.getElem?_eq_none (by omega)] at h
      exact absurd h (by simp)

/-- When the path resolver succeeds, the view resolver returns the same
board's view. -/
theorem get_active_of_get_board :
    ∀ (p : List (Nat × Nat)) (b b' : Board),
      get_board_recursive b p = some b' → get_active_content b p = .board b' := by
  intro p
  induction p with
  | nil =>
    intro b b' h
    simp only [get_board_recursive, Option.some.injEq] at h
    simp [get_active_content, h]
  | cons step rest ih =>
    intro b b' h
    obtain ⟨c, r⟩ := step
    simp only [get_board_recursive] at h
    cases htask : taskAt b c r with
    | none => simp only [htask] at h; exact absurd h (by simp)
    | some t =>
      simp only [htask] at h
      cases hcontent : t.content with
      | none => simp only [hcontent] at h; exact absurd h (by simp)
      | some tc =>
        cases tc with
        | board nb =>
          simp only [hcontent] at h
          simp only [get_active_content, htask, hcontent]
          exact ih nb b' h
        | todo items => simp only [hcontent] at h; exact absurd h (by simp)
        | text s => simp only [hcontent] at h; exact absurd h (by simp)

/-- The walk of the view resolver over `p ++ l` first reaches the board
`p` views, then continues from it over `l`. -/
theorem get_active_append :
    ∀ (p : List (Nat × Nat)) (b b' : Board) (l : List (Nat × Nat)),
      get_active_content b p = .board b' →
      get_active_content b (p ++ l) = get_active_content b' l := by
  intro p
  induction p with
  | nil =>
    intro b b' l h
    simp only [get_active_content, ActiveContentRef.board.injEq] at h
    simp [h]
  | cons step rest ih =>
    intro b b' l h
    obtain ⟨c, r⟩ := step
    simp only [get_active_content] at h ⊢
    cases htask : taskAt b c r with
    | none =>
      simp only [htask] at h ⊢
      exact ih b b' l h
    | some t =>
      cases hcontent : t.content with
      | none => simp only [htask, hcontent] at h; exact absurd h (by simp)
      | some tc =>
        cases tc with
        | board nb =>
          simp only [htask, hcontent] at h ⊢
          exact ih nb b' l h
        | todo items => simp only [htask, hcontent] at h; exact absurd h (by simp)
        | text s => simp only [htask, hcontent] at h; exact absurd h (by simp)

/-- Reading back a task just written at in-range indices. -/
theorem taskAt_setTask (b : Board) (c r : Nat) (t t' : Task)
    (h : taskAt b c r = some t) : taskAt (setTask b c r t') c r = some t' := by
  obtain ⟨col, hcol, hc, htr, hr⟩ := taskAt_bounds h
  unfold taskAt setTask
  rw [hcol]
  simp only [columns_withColumns]
  rw [List.getElem?_set_eq_of_lt _ (by simpa using hc)]
  simp only [tasks_withTasks]
  rw [List.getElem?_set_eq_of_lt _ (by simpa using hr)]

/-- When the read resolver succeeds, writing a board back at the same
path succeeds and is what a subsequent read returns. -/
theorem replace_of_get :
    ∀ (p : List (Nat × Nat)) (b bm : Board), get_board_recursive b p = some bm →
      ∀ nb, ∃ b', replace_board_at b p nb = some b' ∧ get_board_recursive b' p = some nb := by
  intro p
  induction p with
  | nil =>
    intro b bm h nb
    exact ⟨nb, rfl, rfl⟩
  | cons step rest ih =>
    intro b bm h nb
    obtain ⟨c, r⟩ := step
    simp only [get_board_recursive] at h
    cases htask : taskAt b c r with
    | none => simp only [htask] at h; exact absurd h (by simp)
    | some t =>
      simp only [htask] at h
      cases hcontent : t.content with
      | none => simp only [hcontent] at h; exact absurd h (by simp)
      | some tc =>
        cases tc with
        | board sub =>
          simp only [hcontent] at h
          obtain ⟨sub', hrep, hget⟩ := ih sub bm h nb
          refine ⟨setTask b c r (t.withContent (some (.board sub'))), ?_, ?_⟩
          · simp only [replace_board_at, htask, hcontent, hrep]
          · simp only [get_board_recursive, taskAt_setTask b c r t _ htask,
              content_withContent]
            exact hget
        | todo items => simp only [hcontent] at h; exact absurd h (by simp)
        | text s => simp only [hcontent] at h; exact absurd h (by simp)

/-- When the task-read resolver finds a task, writing any task back at
the same path succeeds and is what a subsequent read returns. -/
theorem set_task_of_get :
    ∀ (p : List (Nat × Nat)) (b : Board) (t : Task),
      get_task_at b p = some (some t) →
      ∀ t', ∃ b', set_task_at b p t' = some b' ∧ get_task_at b' p = some (some t') := by
  intro p
  induction p with
  | nil =>
    intro b t h
    simp only [get_task_at, Option.some.injEq] at h
    exact absurd h (by simp)
  | cons step rest ih =>
    intro b t h t'
    obtain ⟨c, r⟩ := step
    cases rest with
    | nil =>
      simp only [get_task_at, Option.some.injEq] at h
      refine ⟨setTask b c r t', ?_, ?_⟩
      · simp only [set_task_at, h]
      · simp only [get_task_at, taskAt_setTask b c r t t' h, Option.some.injEq]
    | cons y ys =>
      simp only [get_task_at] at h
      cases htask : taskAt b c r with
      | none => simp only [htask] at h; exact absurd h (by simp)
      | some t0 =>
        simp only [htask] at h
        cases hcontent : t0.content with
        | none => simp only [hcontent] at h; exact absurd h (by simp)
        | some tc =>
          cases tc with
          | board sub =>
            simp only [hcontent] at h
            obtain ⟨sub', hset, hget⟩ := ih sub t h t'
            refine ⟨setTask b c r (t0.withContent (some (.board sub'))), ?_, ?_⟩
            · simp only [set_task_at, htask, hcontent, hset]
            · simp only [get_task_at, taskAt_setTask b c r t0 _ htask,
                content_withContent]
              exact hget
          | todo items => simp only [hcontent] at h; exact absurd h (by simp)
          | text s => simp only [hcontent] at h; exact absurd h (by simp)

/-- When the task resolver finds a task whose content is not a nested
board, the view resolver returns that content's view. -/
theorem get_active_of_get_task :
    ∀ (p : List (Nat × Nat)) (b : Board) (t : Task),
      get_task_at b p = some (some t) → contentIsBoard t.content = false →
      get_active_content b p = viewOf t.content := by
  intro p
  induction p with
  | nil =>
    intro b t h _
    simp only [get_task_at, Option.some.injEq] at h
    exact absurd h (by simp)
  | cons step rest ih =>
    intro b t h hnb
    obtain ⟨c, r⟩ := step
    cases rest with
    | nil =>
      simp only [get_task_at, Option.some.injEq] at h
      simp only [get_active_content, h]
      cases hcontent : t.content with
      | none => simp [viewOf, hcontent]
      | some tc =>
        cases tc with
        | board sub => rw [hcontent] at hnb; simp [contentIsBoard] at hnb
        | todo items => simp [viewOf, hcontent]
        | text s => simp [viewOf, hcontent]
    | cons y ys =>
      simp only [get_task_at] at h
      cases htask : taskAt b c r with
      | none => simp only [htask] at h; exact absurd h (by simp)
      | some t0 =>
        simp only [htask] at h
        cases hcontent : t0.content with
        | none => simp only [hcontent] at h; exact absurd h (by simp)
        | some tc =>
          cases tc with
          | board sub =>
            simp only [hcontent] at h
            simp only [get_active_content, htask, hcontent]
            exact ih sub t h hnb
          | todo items => simp only [hcontent] at h; exact absurd h (by simp)
          | text s => simp only [hcontent] at h; exact absurd h (by simp)

/-- Appending one step to a resolved path reads the task of that step in
the resolved board. -/
theorem get_task_append :
    ∀ (p : List (Nat × Nat)) (b bm : Board) (c r : Nat),
      get_board_recursive b p = some bm →
      get_task_at b (p ++ [(c, r)]) = some (taskAt bm c r) := by
  intro p
  induction p with
  | nil =>
    intro b bm c r h
    simp only [get_board_recursive, Option.some.injEq] at h
    subst h
    rfl
  | cons step rest ih =>
    intro b bm c r h
    obtain ⟨c0, r0⟩ := step
    simp only [get_board_recursive] at h
    cases htask : taskAt b c0 r0 with
    | none => simp only [htask] at h; exact absurd h (by simp)
    | some t =>
      simp only [htask] at h
      cases hcontent : t.content with
      | none => simp only [hcontent] at h; exact absurd h (by simp)
      | some tc =>
        cases tc with
        | board sub =>
          simp only [hcontent] at h
          have := ih sub bm c r h
          cases hrest : rest with
          | nil =>
            subst hrest
            simp only [List.nil_append] at this
            simp only [List.cons_append, List.nil_append, get_task_at, htask, hcontent]
            exact this
          | cons y ys =>
            subst hrest
            simp only [List.cons_append, get_task_at, htask, hcontent]
            exact this
        | todo items => simp only [hcontent] at h; exact absurd h (by simp)
        | text s => simp only [hcontent] at h; exact absurd h (by simp)

/-- Setting an in-range column changes the board's task total by the
difference at that column. -/
theorem sum_map_set :
    ∀ (cols : List Column) (i : Nat) (col : Column) (h : i < cols.length),
      ((cols.set i col).map (fun c => c.tasks.length)).sum + (cols.get ⟨i, h⟩).tasks.length
        = (cols.map (fun c => c.tasks.length)).sum + col.tasks.length := by
  intro cols
  induction cols with
  | nil => intro i col h; exact absurd h (by simp)
  | cons x xs ih =>
    intro i col h
    cases i with
    | zero => simp [List.set]; omega
    | succ n =>
      simp only [List.set, List.map_cons, List.sum_cons, List.length_cons] at h ⊢
      have := ih n col (by omega)
      simp only [List.get] at this ⊢
      omega

/-- `sortByDone` yields a partitioned list. -/
theorem sortByDone_partitioned (l : List TodoItem) : IsPartitioned (sortByDone l) := by
  refine ⟨l.filter (fun i => !i.done), l.filter (fun i => i.done), rfl, ?_, ?_⟩
  · intro x hx
    have := List.of_mem_filter hx
    simpa using this
  · intro y hy
    exact List.of_mem_filter hy

/-- The not-done group of the sorted list is the not-done sublist of the
input, in order. -/
theorem filter_not_done_sortByDone (l : List TodoItem) :
    (sortByDone l).filter (fun i => !i.done) = l.filter (fun i => !i.done) := by
  unfold sortByDone
  rw [List.filter_append, List.filter_filter, List.filter_filter]
  have h1 : l.filter (fun a => !a.done && !a.done) = l.filter (fun i => !i.done) :=
    List.filter_congr (by intro a _; cases a.done <;> rfl)
  have h2 : l.filter (fun a => !a.done && a.done) = [] := by
    rw [List.filter_eq_nil_iff]
    intro a _
    cases a.done <;> simp
  rw [h1, h2, List.append_nil]

/-- The done group of the sorted list is the done sublist of the input,
in order. -/
theorem filter_done_sortByDone (l : List TodoItem) :
    (sortByDone l).filter (fun i => i.done) = l.filter (fun i => i.done) := by
  unfold sortByDone
  rw [List.filter_append, List.filter_filter, List.filter_filter]
  have h1 : l.filter (fun a => a.done && !a.done) = [] := by
    rw [List.filter_eq_nil_iff]
    intro a _
    cases a.done <;> simp
  have h2 : l.filter (fun a => a.done && a.done) = l.filter (fun i => i.done) :=
    List.filter_congr (by intro a _; cases a.done <;> rfl)
  rw [h1, h2, List.nil_append]

/-- Rust `clamp(lo, hi)` stays between its bounds. -/
theorem intClamp_bounds (x lo hi : Int) (h : lo ≤ hi) :
    lo ≤ intClamp x lo hi ∧ intClamp x lo hi ≤ hi :=
  ⟨le_max_left lo _, max_le h (min_le_right x hi)⟩

/-! ## Concrete states used by witnesses and counterexamples -/

/-- A board whose single task is a leaf (no content). -/
def leafBoard : Board :=
  Board.mk "Main Board" [Column.mk "To Do" [Task.new "Write spec" ""]]

/-- A three-item to-do list. -/
def threeItems : List TodoItem := [⟨"a", false⟩, ⟨"b", false⟩, ⟨"c", false⟩]

/-- A root whose task `(0,0)` holds the three-item to-do list. -/
def todoRoot : Board :=
  Board.mk "Main Board"
    [Column.mk "To Do" [Task.mk 0 "groceries" "" (some (.todo threeItems))],
     Column.new "In Progress", Column.new "Done"]

/-- Viewing the three-item to-do list with the cursor on row 1. -/
def todoApp : App :=
  { root := todoRoot, path := [(0, 0)], cursor := (0, 1), input_mode := .normal,
    input_buffer := "", should_quit := false, show_help := false, dirty := false }

/-- A root whose task `(0,0)` holds a nested board. -/
def nestedRoot : Board :=
  Board.mk "Main Board"
    [Column.mk "To Do" [Task.mk 0 "project" "" (some (.board (Board.mk "New Board" [Column.new "A"])))],
     Column.new "In Progress"]

/-- Viewing the root of `nestedRoot` with the cursor on its task. -/
def nestedApp : App :=
  { root := nestedRoot, path := [], cursor := (0, 0), input_mode := .normal,
    input_buffer := "", should_quit := false, show_help := false, dirty := false }

/-- Viewing the default board at the root. -/
def rootApp : App :=
  { root := Board.default, path := [], cursor := (0, 0), input_mode := .normal,
    input_buffer := "", should_quit := false, show_help := false, dirty := false }

/-- The default board with one task in column 0 (the tree of spec
Scenario D). -/
def scenarioDBoard : Board :=
  Board.mk "Main Board"
    [Column.mk "To Do" [Task.new "Write spec" ""], Column.new "In Progress", Column.new "Done"]

/-- `scenarioDBoard` viewed at the root with the cursor on the task. -/
def scenarioDApp : App :=
  { root := scenarioDBoard, path := [], cursor := (0, 0), input_mode := .normal,
    input_buffer := "", should_quit := false, show_help := false, dirty := false }

/-- A board view whose task has no content yet, in `SelectType` mode. -/
def selectTypeApp : App :=
  { root := leafBoard, path := [], cursor := (0, 0), input_mode := .selectType,
    input_buffer := "", should_quit := false, show_help := false, dirty := false }

/-! ## Claims -/

/-- C1 (counterexample): resolving the path `[(0, 0)]` on a board whose
task `(0, 0)` is a leaf (content `None`) does not produce a recoverable
error value: the source hits `panic!("Invalid path: expected Board")`
(`app.rs:415`), modelled here by the resolver's crash result `none`.
So a path-integrity failure crashes the process instead of being
reported as an error value. -/
theorem get_board_recursive_crash_on_leaf :
    get_board_recursive leafBoard [(0, 0)] = Option.none := rfl

/-- C1 (amended): the path resolver returns a board exactly on integral
paths — every index in range and every step's task content a nested
board; on any path-integrity failure it crashes (the `none` result
modelling the panic at `app.rs:415` and the out-of-range indexing at
`app.rs:410`) rather than returning a recoverable error value. -/
theorem get_board_recursive_isSome_iff_pathIntegral :
    ∀ (p : List (Nat × Nat)) (b : Board),
      (get_board_recursive b p).isSome = pathIntegral b p := by
  intro p
  induction p with
  | nil => intro b; rfl
  | cons step rest ih =>
    intro b
    obtain ⟨c, r⟩ := step
    simp only [get_board_recursive, pathIntegral]
    cases htask : taskAt b c r with
    | none => simp [htask]
    | some t =>
      simp only [htask]
      cases hcontent : t.content with
      | none => simp [hcontent]
      | some tc =>
        cases tc with
        | board nb => simp only [hcontent]; exact ih nb
        | todo items => simp [hcontent]
        | text s => simp [hcontent]

/-- C3: every non-empty sequence of add/toggle operations leaves the
to-do list partitioned into not-done items followed by done items (and
any sequence preserves partitioning), and each single add or toggle is a
stable re-sort keyed on `done`: the not-done group and the done group of
the result are exactly the corresponding sublists of the pre-sort list,
in their prior relative order. -/
theorem todo_stable_partition :
    (∀ (init : List TodoItem) (ops : List TodoOp),
        IsPartitioned init → IsPartitioned (applyTodoOps init ops))
    ∧ (∀ (init : List TodoItem) (op : TodoOp) (ops : List TodoOp),
        IsPartitioned (applyTodoOps init (op :: ops)))
    ∧ (∀ (l : List TodoItem) (op : TodoOp),
        applyTodoOp l op = sortByDone (preSortOp l op)
        ∧ (applyTodoOp l op).filter (fun i => !i.done)
            = (preSortOp l op).filter (fun i => !i.done)
        ∧ (applyTodoOp l op).filter (fun i => i.done)
            = (preSortOp l op).filter (fun i => i.done)) := by
  have hop : ∀ (l : List TodoItem) (op : TodoOp),
      applyTodoOp l op = sortByDone (preSortOp l op) := by
    intro l op
    cases op <;> rfl
  have hpart : ∀ (l : List TodoItem) (op : TodoOp), IsPartitioned (applyTodoOp l op) := by
    intro l op
    rw [hop]
    exact sortByDone_partitioned _
  have hseq : ∀ (ops : List TodoOp) (init : List TodoItem),
      IsPartitioned init → IsPartitioned (applyTodoOps init ops) := by
    intro ops
    induction ops with
    | nil => intro init h; exact h
    | cons op rest ih => intro init _; exact ih _ (hpart init op)
  refine ⟨fun init ops h => hseq ops init h, fun init op ops => hseq ops _ (hpart init op),
    fun l op => ⟨hop l op, ?_, ?_⟩⟩
  · rw [hop]
    exact filter_not_done_sortByDone _
  · rw [hop]
    exact filter_done_sortByDone _

/-- C3 (witness): adding "step 1" to the empty list and toggling item 0
leaves a partitioned list. -/
theorem todo_stable_partition_witness :
    IsPartitioned (applyTodoOps [] [TodoOp.add "step 1", TodoOp.toggle 0]) :=
  todo_stable_partition.1 [] [TodoOp.add "step 1", TodoOp.toggle 0]
    ⟨[], [], rfl, by simp, by simp⟩

/-- C9: submitting a blank (empty or all-whitespace) buffer for
add-column (`EditingColumn` mode), add-task (board view) or add-to-do
item (to-do view) changes nothing except clearing the buffer and
returning the mode to `Normal`: the tree, path, cursor and every other
field are untouched. -/
theorem submit_blank_input_noop (app : App)
    (hblank : rustTrim app.input_buffer = "")
    (hctx : app.input_mode = InputMode.editingColumn
        ∨ (app.input_mode ≠ InputMode.editingColumn ∧
            ((∃ b, get_active_content app.root app.path = .board b)
              ∨ (∃ items, get_active_content app.root app.path = .todo items)))) :
    submit_input app = some { app with input_buffer := "", input_mode := InputMode.normal } := by
  unfold submit_input
  rcases hctx with hmode | ⟨hmode, hview⟩
  · rw [if_pos hmode]
    simp [hblank]
  · rw [if_neg hmode]
    rcases hview with ⟨b, hb⟩ | ⟨items, hi⟩
    · rw [hb]
      simp [hblank]
    · rw [hi]
      simp [hblank]

/-- C9 (witness): submitting a three-space buffer in `EditingColumn`
mode only clears the buffer and returns to `Normal`. -/
theorem submit_blank_input_noop_witness :
    submit_input { rootApp with input_mode := InputMode.editingColumn, input_buffer := "   " }
      = some { rootApp with input_mode := InputMode.normal, input_buffer := "" } :=
  submit_blank_input_noop
    { rootApp with input_mode := InputMode.editingColumn, input_buffer := "   " }
    (by decide) (Or.inl rfl)

/-- C10: a go-back at the root (empty path), outside `SelectType` mode
and with no help overlay, changes nothing at all. -/
theorem go_back_at_root_noop (app : App) (h1 : app.path = [])
    (h2 : app.input_mode ≠ InputMode.selectType) (h3 : app.show_help = false) :
    go_back app = app := by
  unfold go_back
  rw [h3, h1]
  simp [h2]

/-- C10 (witness): go-back on the freshly loaded root state is the
identity. -/
theorem go_back_at_root_noop_witness : go_back rootApp = rootApp :=
  go_back_at_root_noop rootApp rfl (by decide) rfl

/-- C2: whenever the first `pre` steps of the path resolve through
nested boards to `b`, the view resolver (i) returns `b`'s view when the
path is exhausted there, and (ii) at a next step whose task's content is
not a nested board, returns that content's view immediately — whatever
else the path still contains — with `None` content giving the empty
view (in particular for a terminal task). -/
theorem view_resolver_stops_at_first_non_board (root b : Board) (pre : List (Nat × Nat))
    (h : get_board_recursive root pre = some b) :
    get_active_content root pre = .board b
    ∧ ∀ (c r : Nat) (rest : List (Nat × Nat)) (task : Task),
        taskAt b c r = some task → contentIsBoard task.content = false →
        get_active_content root (pre ++ (c, r) :: rest) = viewOf task.content := by
  have hb := get_active_of_get_board pre root b h
  refine ⟨hb, ?_⟩
  intro c r rest task ht hnb
  rw [get_active_append pre root b ((c, r) :: rest) hb]
  simp only [get_active_content, ht]
  cases hcontent : task.content with
  | none => simp [viewOf]
  | some tc =>
    cases tc with
    | board nb => rw [hcontent] at hnb; simp [contentIsBoard] at hnb
    | todo items => simp [viewOf, hcontent]
    | text s => simp [viewOf, hcontent]

/-- C2 (witness): on `todoRoot`, after the empty prefix the walk hits
the to-do task at `(0,0)` and returns its list view immediately, even
though the stale path continues with `(7,7)`. -/
theorem view_resolver_stops_at_first_non_board_witness :
    get_active_content todoRoot ([] ++ (0, 0) :: [(7, 7)]) = .todo threeItems :=
  (view_resolver_stops_at_first_non_board todoRoot todoRoot [] rfl).2 0 0 [(7, 7)]
    (Task.mk 0 "groceries" "" (some (.todo threeItems))) rfl rfl

/-- C7: when a drill-down on a board view actually pushes a segment
(the cursor's task exists and has content), a go-back issued on the
resulting state — with no help overlay and outside `SelectType` mode —
pops exactly that segment and restores the cursor that was active
before the descent. -/
theorem drill_down_go_back_roundtrip (app : App) (b : Board) (task : Task)
    (cont : TaskContent)
    (hb : get_active_content app.root app.path = .board b)
    (ht : taskAt b app.cursor.1 app.cursor.2 = some task)
    (hc : task.content = some cont)
    (hh : app.show_help = false)
    (hm : app.input_mode ≠ InputMode.selectType) :
    (handle_drill_down app).path = app.path ++ [(app.cursor.1, app.cursor.2)]
    ∧ (go_back (handle_drill_down app)).path = app.path
    ∧ (go_back (handle_drill_down app)).cursor = app.cursor := by
  have happ : handle_drill_down app
      = (let app1 : App := { app with path := app.path ++ [(app.cursor.1, app.cursor.2)],
                                      cursor := (0, 0) }
         match get_active_content app1.root app1.path with
         | .text s => { app1 with input_mode := .editing, input_buffer := s }
         | _ => app1) := by
    unfold handle_drill_down
    rw [hb]
    simp only [ht, hc]
  cases hview : get_active_content app.root (app.path ++ [(app.cursor.1, app.cursor.2)]) with
  | text s =>
    rw [happ]
    simp only [hview]
    refine ⟨by trivial, ?_, ?_⟩ <;>
    · unfold go_back
      simp [hh, hm]
  | board b2 =>
    rw [happ]
    simp only [hview]
    refine ⟨by trivial, ?_, ?_⟩ <;>
    · unfold go_back
      simp [hh, hm]
  | todo items =>
    rw [happ]
    simp only [hview]
    refine ⟨by trivial, ?_, ?_⟩ <;>
    · unfold go_back
      simp [hh, hm]
  | none =>
    rw [happ]
    simp only [hview]
    refine ⟨by trivial, ?_, ?_⟩ <;>
    · unfold go_back
      simp [hh, hm]

/-- C7 (witness): drilling into the nested board of `nestedApp` and
going back restores the empty path and the cursor `(0, 0)`. -/
theorem drill_down_go_back_roundtrip_witness :
    (handle_drill_down nestedApp).path
        = nestedApp.path ++ [(nestedApp.cursor.1, nestedApp.cursor.2)]
    ∧ (go_back (handle_drill_down nestedApp)).path = nestedApp.path
    ∧ (go_back (handle_drill_down nestedApp)).cursor = nestedApp.cursor :=
  drill_down_go_back_roundtrip nestedApp
    (Board.mk "Main Board"
      [Column.mk "To Do"
        [Task.mk 0 "project" "" (some (.board (Board.mk "New Board" [Column.new "A"])))],
       Column.new "In Progress"])
    (Task.mk 0 "project" "" (some (.board (Board.mk "New Board" [Column.new "A"]))))
    (.board (Board.mk "New Board" [Column.new "A"]))
    rfl rfl rfl rfl (by decide)

/-- C8: in `SelectType` mode with the cursor on an existing task of the
resolved board, selecting a content kind (the source supplies the fresh
"New Board", the empty to-do list `Todo([])`, or the empty text) binds
that content to the task and immediately drills into it: the path grows
by exactly the cursor segment, the cursor resets to `(0, 0)`, and the
task at the new path now carries the chosen content. -/
theorem initialize_content_binds_and_drills (app : App) (bm : Board) (task : Task)
    (content : TaskContent)
    (hmode : app.input_mode = InputMode.selectType)
    (hres : get_board_recursive app.root app.path = some bm)
    (ht : taskAt bm app.cursor.1 app.cursor.2 = some task)
    (_hkind : content = TaskContent.board (Board.mk "New Board" Board.default.columns)
        ∨ content = TaskContent.todo [] ∨ content = TaskContent.text "") :
    ∃ app', initialize_content app content = some app'
      ∧ app'.path = app.path ++ [(app.cursor.1, app.cursor.2)]
      ∧ app'.path.length = app.path.length + 1
      ∧ app'.cursor = (0, 0)
      ∧ get_task_at app'.root app'.path = some (some (task.withContent (some content))) := by
  obtain ⟨col, hcol, hc, htr, hr⟩ := taskAt_bounds ht
  have hst : setColumn bm app.cursor.1
      (col.withTasks (col.tasks.set app.cursor.2 (task.withContent (some content))))
      = setTask bm app.cursor.1 app.cursor.2 (task.withContent (some content)) := by
    unfold setTask setColumn
    rw [hcol]
  obtain ⟨root', hrep, hget'⟩ :=
    replace_of_get app.path app.root bm hres (setTask bm app.cursor.1 app.cursor.2
      (task.withContent (some content)))
  have hinit : initialize_content app content
      = some (handle_drill_down
          { app with root := root', dirty := true, input_mode := .normal }) := by
    unfold initialize_content
    rw [if_neg (by simp [hmode])]
    rw [hres]
    simp only [hcol, htr, hst, hrep]
  have hactive : get_active_content root' app.path
      = .board (setTask bm app.cursor.1 app.cursor.2 (task.withContent (some content))) :=
    get_active_of_get_board _ _ _ hget'
  have ht' : taskAt (setTask bm app.cursor.1 app.cursor.2 (task.withContent (some content)))
      app.cursor.1 app.cursor.2 = some (task.withContent (some content)) :=
    taskAt_setTask bm _ _ task _ ht
  have htask' : get_task_at root' (app.path ++ [(app.cursor.1, app.cursor.2)])
      = some (some (task.withContent (some content))) := by
    rw [get_task_append app.path root' _ app.cursor.1 app.cursor.2 hget', ht']
  have hdd : handle_drill_down { app with root := root', dirty := true, input_mode := .normal }
      = (let app1 : App := { app with root := root', dirty := true, input_mode := .normal,
                                      path := app.path ++ [(app.cursor.1, app.cursor.2)],
                                      cursor := (0, 0) }
         match get_active_content app1.root app1.path with
         | .text s => { app1 with input_mode := .editing, input_buffer := s }
         | _ => app1) := by
    unfold handle_drill_down
    rw [show ({ app with root := root', dirty := true,
                         input_mode := InputMode.normal } : App).root = root' from rfl]
    rw [hactive]
    simp only [ht', content_withContent]
  rw [hinit, hdd]
  cases hview : get_active_content root' (app.path ++ [(app.cursor.1, app.cursor.2)]) with
  | text s =>
    simp only [hview]
    exact ⟨_, rfl, rfl, by simp, rfl, htask'⟩
  | board b2 =>
    simp only [hview]
    exact ⟨_, rfl, rfl, by simp, rfl, htask'⟩
  | todo items =>
    simp only [hview]
    exact ⟨_, rfl, rfl, by simp, rfl, htask'⟩
  | none =>
    simp only [hview]
    exact ⟨_, rfl, rfl, by simp, rfl, htask'⟩

/-- C8 (witness): selecting `TodoList` for the empty task of
`selectTypeApp` binds `Todo([])`, pushes `(0,0)` and resets the cursor. -/
theorem initialize_content_binds_and_drills_witness :
    ∃ app', initialize_content selectTypeApp (TaskContent.todo []) = some app'
      ∧ app'.path = selectTypeApp.path ++ [(selectTypeApp.cursor.1, selectTypeApp.cursor.2)]
      ∧ app'.path.length = selectTypeApp.path.length + 1
      ∧ app'.cursor = (0, 0)
      ∧ get_task_at app'.root app'.path
          = some (some ((Task.new "Write spec" "").withContent (some (TaskContent.todo [])))) :=
  initialize_content_binds_and_drills selectTypeApp leafBoard (Task.new "Write spec" "")
    (TaskContent.todo []) rfl rfl rfl (Or.inr (Or.inl rfl))

/-- C6 (counterexample): in `todoApp` the cursor is on row 1 of a
three-item list, so the removed row is not the last one; the claim says
the row must stay 1, but `delete_item` leaves the cursor at row 0 — the
to-do branch of `App::delete_item` (`app.rs:340`) decrements the row
whenever it is positive, not only when the removed row was the last. -/
theorem delete_item_decrements_nonlast_todo_row :
    todoApp.cursor.2 = 1 ∧ threeItems.length = 3
    ∧ get_active_content todoApp.root todoApp.path = .todo threeItems
    ∧ (delete_item todoApp).map App.cursor = some (0, 0) :=
  ⟨rfl, rfl, rfl, rfl⟩

/-- C6 (amended): board view — deleting removes the whole task at the
cursor (and with it everything nested beneath it) from its column and
decrements the cursor row exactly when the removed row was the last in
the column and positive; to-do view — deleting removes the item at the
cursor row and decrements the row whenever it is positive (not only
when the removed row was the last). -/
theorem delete_item_spec (app : App) :
    (∀ (b : Board) (col : Column), get_board_recursive app.root app.path = some b →
       b.columns[app.cursor.1]? = some col →
       app.cursor.2 < col.tasks.length →
       ∃ app', delete_item app = some app'
         ∧ get_board_recursive app'.root app.path
             = some (setColumn b app.cursor.1 (col.withTasks (col.tasks.eraseIdx app.cursor.2)))
         ∧ app'.path = app.path
         ∧ app'.cursor.1 = app.cursor.1
         ∧ app'.cursor.2
             = if app.cursor.2 = col.tasks.length - 1 ∧ 0 < app.cursor.2
               then app.cursor.2 - 1 else app.cursor.2)
    ∧ (∀ (t : Task) (items : List TodoItem), get_task_at app.root app.path = some (some t) →
       t.content = some (.todo items) →
       app.cursor.2 < items.length →
       ∃ app', delete_item app = some app'
         ∧ get_task_at app'.root app.path
             = some (some (t.withContent (some (.todo (items.eraseIdx app.cursor.2)))))
         ∧ app'.path = app.path
         ∧ app'.cursor.1 = app.cursor.1
         ∧ app'.cursor.2 = if 0 < app.cursor.2 then app.cursor.2 - 1 else app.cursor.2) := by
  constructor
  · intro b col hres hcol hr
    obtain ⟨-, -, hc, -, -⟩ : ∃ col', b.columns[app.cursor.1]? = some col'
        ∧ app.cursor.1 < b.columns.length ∧ True ∧ True := by
      have hlen : app.cursor.1 < b.columns.length := by
        by_contra hcc
        rw [List.getElem?_eq_none (by omega)] at hcol
        exact absurd hcol (by simp)
      exact ⟨col, hcol, hlen, trivial, trivial⟩
    have hactive : get_active_content app.root app.path = .board b :=
      get_active_of_get_board _ _ _ hres
    have hlenAt : tasksLenAt b app.cursor.1 = col.tasks.length := by
      unfold tasksLenAt
      rw [hcol]
    obtain ⟨root', hrep, hget'⟩ := replace_of_get app.path app.root b hres
      (setColumn b app.cursor.1 (col.withTasks (col.tasks.eraseIdx app.cursor.2)))
    have hdel : delete_item app
        = some { app with root := root', dirty := true,
                          cursor := (app.cursor.1,
                            if app.cursor.2 ≥ (col.withTasks (col.tasks.eraseIdx app.cursor.2)).tasks.length
                                ∧ app.cursor.2 > 0
                            then app.cursor.2 - 1 else app.cursor.2) } := by
      unfold delete_item
      rw [hactive]
      simp only [hlenAt]
      rw [if_pos ⟨hc, hr⟩, hres]
      simp only [hcol]
      rw [if_pos hr]
      simp only [hrep]
    refine ⟨_, hdel, hget', rfl, rfl, ?_⟩
    have herase : (col.withTasks (col.tasks.eraseIdx app.cursor.2)).tasks.length
        = col.tasks.length - 1 := by
      simp [List.length_eraseIdx, hr]
    rw [show ({ app with root := root', dirty := true,
                         cursor := (app.cursor.1,
                           if app.cursor.2 ≥ (col.withTasks (col.tasks.eraseIdx app.cursor.2)).tasks.length
                               ∧ app.cursor.2 > 0
                           then app.cursor.2 - 1 else app.cursor.2) } : App).cursor.2
        = if app.cursor.2 ≥ (col.withTasks (col.tasks.eraseIdx app.cursor.2)).tasks.length
              ∧ app.cursor.2 > 0
          then app.cursor.2 - 1 else app.cursor.2 from rfl]
    rw [herase]
    exact if_congr (by omega) rfl rfl
  · intro t items hget hcont hrlt
    have hactive : get_active_content app.root app.path = .todo items := by
      have hv := get_active_of_get_task app.path app.root t hget (by rw [hcont]; rfl)
      rw [hcont] at hv
      exact hv
    obtain ⟨root', hset, hget'⟩ := set_task_of_get app.path app.root t hget
      (t.withContent (some (.todo (items.eraseIdx app.cursor.2))))
    have hrem : remove_todo_item app app.cursor.2
        = some { app with root := root', dirty := true } := by
      unfold remove_todo_item
      rw [hget]
      simp only [hcont]
      rw [if_pos hrlt]
      simp only [hset]
    have hdel : delete_item app
        = some (if app.cursor.2 > 0
                then { app with root := root', dirty := true,
                                cursor := (app.cursor.1, app.cursor.2 - 1) }
                else { app with root := root', dirty := true }) := by
      unfold delete_item
      simp only [hactive]
      rw [if_pos hrlt]
      rw [hrem]
    by_cases h0 : 0 < app.cursor.2
    · rw [if_pos h0] at hdel
      exact ⟨_, hdel, hget', rfl, rfl, by rw [if_pos h0]⟩
    · rw [if_neg h0] at hdel
      exact ⟨_, hdel, hget', rfl, rfl, by rw [if_neg h0]⟩

/-- C6 (witness): deleting the only task of Scenario D's column 0
removes it and leaves the cursor row at 0. -/
theorem delete_item_spec_witness :
    ∃ app', delete_item scenarioDApp = some app'
      ∧ get_board_recursive app'.root scenarioDApp.path
          = some (setColumn scenarioDBoard 0
              ((Column.mk "To Do" [Task.new "Write spec" ""]).withTasks
                ([Task.new "Write spec" ""].eraseIdx 0)))
      ∧ app'.path = scenarioDApp.path
      ∧ app'.cursor.1 = scenarioDApp.cursor.1
      ∧ app'.cursor.2
          = if scenarioDApp.cursor.2 = ([Task.new "Write spec" ""] : List Task).length - 1
                ∧ 0 < scenarioDApp.cursor.2
            then scenarioDApp.cursor.2 - 1 else scenarioDApp.cursor.2 :=
  (delete_item_spec scenarioDApp).1 scenarioDBoard
    (Column.mk "To Do" [Task.new "Write spec" ""]) rfl rfl (by decide)

/-- C5: a `move(dx, dy)` from a cursor satisfying the clamp invariant
never crashes and re-establishes the invariant.  Board view:
`cursor.column < column_count` and `cursor.row < max 1 tasks_in_column`,
with an empty column forcing row 0; to-do view: `cursor.row <
max 1 item_count`, with an empty list leaving the state untouched
(vertical movement ignored). -/
theorem move_cursor_clamp_invariant (app : App) (dx dy : Int) :
    (∀ b, get_active_content app.root app.path = .board b →
      0 < b.columns.length →
      app.cursor.1 < b.columns.length →
      app.cursor.2 < max 1 (tasksLenAt b app.cursor.1) →
      ∃ app', move_cursor app dx dy = some app'
        ∧ app'.root = app.root ∧ app'.path = app.path
        ∧ app'.cursor.1 < b.columns.length
        ∧ app'.cursor.2 < max 1 (tasksLenAt b app'.cursor.1)
        ∧ (tasksLenAt b app'.cursor.1 = 0 → app'.cursor.2 = 0))
    ∧ (∀ items, get_active_content app.root app.path = .todo items →
      app.cursor.2 < max 1 items.length →
      ∃ app', move_cursor app dx dy = some app'
        ∧ app'.root = app.root ∧ app'.path = app.path
        ∧ app'.cursor.2 < max 1 items.length
        ∧ (items.length = 0 → app' = app)) := by
  by_cases hguard : app.input_mode ≠ InputMode.normal ∨ app.show_help = true
  · have hnoop : move_cursor app dx dy = some app := by
      unfold move_cursor
      rw [if_pos hguard]
    constructor
    · intro b _ _ hcb hrb
      refine ⟨app, hnoop, rfl, rfl, hcb, hrb, ?_⟩
      intro h0
      rw [h0] at hrb
      omega
    · intro items _ hrt
      exact ⟨app, hnoop, rfl, rfl, hrt, fun _ => rfl⟩
  · constructor
    · intro b hb hpos hcb hrb
      have hc1lt : (if dx ≠ 0
          then intClamp (↑app.cursor.1 + dx) 0 (↑b.columns.length - 1)
          else (↑app.cursor.1 : Int)).toNat < b.columns.length := by
        by_cases hdx : dx ≠ 0
        · rw [if_pos hdx]
          simp only [intClamp]
          omega
        · rw [if_neg hdx]
          omega
      obtain ⟨col, hcol⟩ : ∃ col, b.columns[(if dx ≠ 0
          then intClamp (↑app.cursor.1 + dx) 0 (↑b.columns.length - 1)
          else (↑app.cursor.1 : Int)).toNat]? = some col :=
        ⟨_, List.getElem?_eq_getElem hc1lt⟩
      have htl : tasksLenAt b (if dx ≠ 0
          then intClamp (↑app.cursor.1 + dx) 0 (↑b.columns.length - 1)
          else (↑app.cursor.1 : Int)).toNat = col.tasks.length := by
        unfold tasksLenAt
        rw [hcol]
      have hmove : move_cursor app dx dy = some { app with cursor :=
          ((if dx ≠ 0
            then intClamp (↑app.cursor.1 + dx) 0 (↑b.columns.length - 1)
            else (↑app.cursor.1 : Int)).toNat,
           (if dy ≠ 0
            then (if dx ≠ 0
                  then min (↑app.cursor.2)
                    (if col.tasks.length > 0 then (col.tasks.length : Int) - 1 else 0)
                  else intClamp (↑app.cursor.2 + dy) 0
                    (if col.tasks.length > 0 then (col.tasks.length : Int) - 1 else 0))
            else if dx ≠ 0
                 then min (↑app.cursor.2)
                   (if col.tasks.length > 0 then (col.tasks.length : Int) - 1 else 0)
                 else (↑app.cursor.2 : Int)).toNat) } := by
        unfold move_cursor
        rw [if_neg hguard]
        simp only [hb]
        rw [if_neg (show ¬ (b.columns.length = 0) by omega)]
        rw [hcol]
      refine ⟨_, hmove, rfl, rfl, hc1lt, ?_, ?_⟩
      · show (if dy ≠ 0
            then (if dx ≠ 0
                  then min (↑app.cursor.2)
                    (if col.tasks.length > 0 then (col.tasks.length : Int) - 1 else 0)
                  else intClamp (↑app.cursor.2 + dy) 0
                    (if col.tasks.length > 0 then (col.tasks.length : Int) - 1 else 0))
            else if dx ≠ 0
                 then min (↑app.cursor.2)
                   (if col.tasks.length > 0 then (col.tasks.length : Int) - 1 else 0)
                 else (↑app.cursor.2 : Int)).toNat
          < max 1 (tasksLenAt b (if dx ≠ 0
              then intClamp (↑app.cursor.1 + dx) 0 (↑b.columns.length - 1)
              else (↑app.cursor.1 : Int)).toNat)
        rw [htl]
        by_cases hdy : dy ≠ 0 <;> by_cases hdx : dx ≠ 0
        · rw [if_pos hdy, if_pos hdx]
          by_cases h0 : col.tasks.length > 0
          · rw [if_pos h0]
            omega
          · rw [if_neg h0]
            omega
        · rw [if_pos hdy, if_neg hdx]
          simp only [intClamp]
          by_cases h0 : col.tasks.length > 0
          · rw [if_pos h0]
            omega
          · rw [if_neg h0]
            omega
        · rw [if_neg hdy, if_pos hdx]
          by_cases h0 : col.tasks.length > 0
          · rw [if_pos h0]
            omega
          · rw [if_neg h0]
            omega
        · rw [if_neg hdy, if_neg hdx]
          have hsame : (if dx ≠ 0
              then intClamp (↑app.cursor.1 + dx) 0 (↑b.columns.length - 1)
              else (↑app.cursor.1 : Int)).toNat = app.cursor.1 := by
            rw [if_neg hdx]
            omega
          rw [hsame] at htl
          rw [htl] at hrb
          omega
      · show tasksLenAt b (if dx ≠ 0
              then intClamp (↑app.cursor.1 + dx) 0 (↑b.columns.length - 1)
              else (↑app.cursor.1 : Int)).toNat = 0 →
          (if dy ≠ 0
            then (if dx ≠ 0
                  then min (↑app.cursor.2)
                    (if col.tasks.length > 0 then (col.tasks.length : Int) - 1 else 0)
                  else intClamp (↑app.cursor.2 + dy) 0
                    (if col.tasks.length > 0 then (col.tasks.length : Int) - 1 else 0))
            else if dx ≠ 0
                 then min (↑app.cursor.2)
                   (if col.tasks.length > 0 then (col.tasks.length : Int) - 1 else 0)
                 else (↑app.cursor.2 : Int)).toNat = 0
        rw [htl]
        intro h0
        rw [if_neg (show ¬ (col.tasks.length > 0) by omega)]
        by_cases hdy : dy ≠ 0 <;> by_cases hdx : dx ≠ 0
        · rw [if_pos hdy, if_pos hdx]
          omega
        · rw [if_pos hdy, if_neg hdx]
          simp only [intClamp]
          omega
        · rw [if_neg hdy, if_pos hdx]
          omega
        · rw [if_neg hdy, if_neg hdx]
          have hsame : (if dx ≠ 0
              then intClamp (↑app.cursor.1 + dx) 0 (↑b.columns.length - 1)
              else (↑app.cursor.1 : Int)).toNat = app.cursor.1 := by
            rw [if_neg hdx]
            omega
          rw [hsame] at htl
          rw [htl] at hrb
          omega
    · intro items hi hrt
      unfold move_cursor
      rw [if_neg hguard]
      simp only [hi]
      by_cases h0 : items.length = 0
      · rw [if_pos h0]
        exact ⟨app, rfl, rfl, rfl, hrt, fun _ => rfl⟩
      · rw [if_neg h0]
        refine ⟨_, rfl, rfl, rfl, ?_, fun h => absurd h h0⟩
        show (if dy ≠ 0
            then intClamp (↑app.cursor.2 + dy) 0 (↑items.length - 1)
            else (↑app.cursor.2 : Int)).toNat < max 1 items.length
        by_cases hdy : dy ≠ 0
        · rw [if_pos hdy]
          simp only [intClamp]
          omega
        · rw [if_neg hdy]
          omega

/-- C5 (witness): a right-move on the freshly loaded default board keeps
the cursor inside the clamp bounds. -/
theorem move_cursor_clamp_invariant_witness :
    ∃ app', move_cursor rootApp 1 0 = some app'
      ∧ app'.root = rootApp.root ∧ app'.path = rootApp.path
      ∧ app'.cursor.1 < Board.default.columns.length
      ∧ app'.cursor.2 < max 1 (tasksLenAt Board.default app'.cursor.1)
      ∧ (tasksLenAt Board.default app'.cursor.1 = 0 → app'.cursor.2 = 0) :=
  (move_cursor_clamp_invariant rootApp 1 0).1 Board.default rfl (by decide) (by decide)
    (by decide)

/-- C4: moving the task under the cursor by `dir ∈ {−1, +1}` on a board
view is a no-op when the destination column index is out of range;
otherwise it preserves the board's total task count, removes the task
from exactly the source column, appends it at the end of exactly the
destination column (every other column unchanged), and puts the cursor
on the destination column's new last row. -/
theorem move_task_horizontal_spec (app : App) (b : Board) (colc : Column) (dir : Int)
    (hmode : app.input_mode = InputMode.normal)
    (hres : get_board_recursive app.root app.path = some b)
    (hcol : b.columns[app.cursor.1]? = some colc)
    (hr : app.cursor.2 < colc.tasks.length)
    (hdir : dir = 1 ∨ dir = -1) :
    (((app.cursor.1 : Int) + dir < 0 ∨ (b.columns.length : Int) ≤ (app.cursor.1 : Int) + dir) →
      move_task_horizontal app dir = some app)
    ∧ (∀ (nc : Nat) (coln : Column), (nc : Int) = (app.cursor.1 : Int) + dir →
        b.columns[nc]? = some coln →
        ∃ app' b', move_task_horizontal app dir = some app'
          ∧ get_board_recursive app'.root app.path = some b'
          ∧ app'.path = app.path
          ∧ totalTasks b' = totalTasks b
          ∧ b'.columns[app.cursor.1]?
              = some (colc.withTasks (colc.tasks.eraseIdx app.cursor.2))
          ∧ b'.columns[nc]?
              = some (coln.withTasks (coln.tasks ++ [colc.tasks.get ⟨app.cursor.2, hr⟩]))
          ∧ app'.cursor = (nc, coln.tasks.length)
          ∧ ∀ j, j ≠ app.cursor.1 → j ≠ nc → b'.columns[j]? = b.columns[j]?) := by
  have hactive : get_active_content app.root app.path = .board b :=
    get_active_of_get_board _ _ _ hres
  have hclt : app.cursor.1 < b.columns.length := by
    by_contra h
    rw [List.getElem?_eq_none (by omega)] at hcol
    exact absurd hcol (by simp)
  constructor
  · intro hout
    unfold move_task_horizontal
    rw [if_neg (by simp [hmode])]
    simp only [hactive]
    rw [if_pos (by omega)]
  · intro nc coln hnceq hcoln
    have hnclt : nc < b.columns.length := by
      by_contra h
      rw [List.getElem?_eq_none (by omega)] at hcoln
      exact absurd hcoln (by simp)
    have hcne : app.cursor.1 ≠ nc := by
      rcases hdir with h | h <;> omega
    have htask : colc.tasks[app.cursor.2]? = some colc.tasks[app.cursor.2] :=
      List.getElem?_eq_getElem hr
    have hbm1nc : (setColumn b app.cursor.1
        (colc.withTasks (colc.tasks.eraseIdx app.cursor.2))).columns[nc]? = some coln := by
      unfold setColumn
      simp only [columns_withColumns]
      rw [List.getElem?_set_ne hcne]
      exact hcoln
    obtain ⟨root', hrep, hget'⟩ := replace_of_get app.path app.root b hres
      (setColumn (setColumn b app.cursor.1 (colc.withTasks (colc.tasks.eraseIdx app.cursor.2)))
        nc (coln.withTasks (coln.tasks ++ [colc.tasks[app.cursor.2]])))
    have hmove : move_task_horizontal app dir
        = some { app with root := root', dirty := true,
                          cursor := (nc, (coln.tasks ++ [colc.tasks[app.cursor.2]]).length - 1) } := by
      unfold move_task_horizontal
      rw [if_neg (by simp [hmode])]
      simp only [hactive]
      rw [if_neg (show ¬ ((app.cursor.1 : Int) + dir < 0
          ∨ (app.cursor.1 : Int) + dir ≥ (b.columns.length : Int)) by omega)]
      rw [hres]
      simp only [hcol]
      rw [if_pos hr]
      simp only [htask]
      rw [show ((app.cursor.1 : Int) + dir).toNat = nc by omega]
      simp only [hbm1nc]
      simp only [hrep]
    have hgc : b.columns.get ⟨app.cursor.1, hclt⟩ = colc := by
      have h1 := List.getElem?_eq_getElem hclt
      rw [hcol] at h1
      exact (Option.some.inj h1).symm
    have hgn : (b.columns.set app.cursor.1
        (colc.withTasks (colc.tasks.eraseIdx app.cursor.2))).get
          ⟨nc, by simp [List.length_set]; omega⟩ = coln := by
      have h1 := List.getElem?_eq_getElem
        (show nc < (b.columns.set app.cursor.1
          (colc.withTasks (colc.tasks.eraseIdx app.cursor.2))).length by
            simp [List.length_set]; omega)
      rw [List.getElem?_set_ne hcne, hcoln] at h1
      exact (Option.some.inj h1).symm
    refine ⟨_,
      setColumn (setColumn b app.cursor.1 (colc.withTasks (colc.tasks.eraseIdx app.cursor.2)))
        nc (coln.withTasks (coln.tasks ++ [colc.tasks[app.cursor.2]])),
      hmove, hget', rfl, ?_, ?_, ?_, ?_, ?_⟩
    · -- conservation of the total task count
      unfold totalTasks setColumn
      simp only [columns_withColumns]
      have e1 := sum_map_set b.columns app.cursor.1
        (colc.withTasks (colc.tasks.eraseIdx app.cursor.2)) hclt
      have e2 := sum_map_set
        (b.columns.set app.cursor.1 (colc.withTasks (colc.tasks.eraseIdx app.cursor.2)))
        nc (coln.withTasks (coln.tasks ++ [colc.tasks[app.cursor.2]]))
        (by simp [List.length_set]; omega)
      rw [hgc] at e1
      rw [hgn] at e2
      simp only [tasks_withTasks, List.length_append, List.length_cons, List.length_nil,
        List.length_eraseIdx, hr, if_true] at e1 e2 ⊢
      omega
    · -- the source column lost exactly the task at the cursor row
      unfold setColumn
      simp only [columns_withColumns]
      rw [List.getElem?_set_ne (Ne.symm hcne)]
      rw [List.getElem?_set_eq_of_lt _ hclt]
    · -- the destination column gained exactly that task at its end
      unfold setColumn
      simp only [columns_withColumns]
      rw [List.getElem?_set_eq_of_lt _ (by simp [List.length_set]; omega)]
      rfl
    · -- cursor on the destination's new last row
      simp
    · -- every other column untouched
      intro j hjc hjn
      unfold setColumn
      simp only [columns_withColumns]
      rw [List.getElem?_set_ne (Ne.symm hjn), List.getElem?_set_ne (Ne.symm hjc)]

/-- C4 (witness): Scenario D — with the only task in column 0 and the
cursor on it, moving right empties column 0, appends the task to column
1 and sets the cursor to `(1, 0)`. -/
theorem move_task_horizontal_spec_witness :
    ∃ app' b', move_task_horizontal scenarioDApp 1 = some app'
      ∧ get_board_recursive app'.root scenarioDApp.path = some b'
      ∧ app'.path = scenarioDApp.path
      ∧ totalTasks b' = totalTasks scenarioDBoard
      ∧ b'.columns[scenarioDApp.cursor.1]?
          = some ((Column.mk "To Do" [Task.new "Write spec" ""]).withTasks
              ([Task.new "Write spec" ""].eraseIdx scenarioDApp.cursor.2))
      ∧ b'.columns[1]?
          = some ((Column.new "In Progress").withTasks
              ((Column.new "In Progress").tasks
                ++ [[Task.new "Write spec" ""].get ⟨scenarioDApp.cursor.2, by decide⟩]))
      ∧ app'.cursor = (1, (Column.new "In Progress").tasks.length)
      ∧ ∀ j, j ≠ scenarioDApp.cursor.1 → j ≠ 1 →
          b'.columns[j]? = scenarioDBoard.columns[j]? :=
  (move_task_horizontal_spec scenarioDApp scenarioDBoard
      (Column.mk "To Do" [Task.new "Write spec" ""]) 1 rfl rfl rfl (by decide)
      (Or.inl rfl)).2 1 (Column.new "In Progress") (by decide) rfl

end Kanban
